import Mathlib

/-!
Shallow embedding of the SpinNRewards backend (src/main.py): user records,
the key-value user store, and the command handlers for spin, start/referral,
task submission/approval and the admin commands, together with proofs of the
specification claims about them.

The random index consumed by `random.choice` in `draw_reward` is threaded as
an explicit natural-number parameter; `time.time()` is threaded as an explicit
integer number of seconds.
-/

/-- A user record, mirroring the default schema created by `get_user` in
src/main.py. -/
structure UserRecord where
  coins : Int
  spins : Int
  last_spin_time : Int
  ref_by : Option String
  refs : List String
  daily_refs : List String
  weekly_refs : List String
  task_pending : List String
  task_done : List String
deriving DecidableEq, Repr

/-- The default record persisted on first access (coins 0, spins 3, no
referrals, no tasks). -/
def defaultUser : UserRecord :=
  { coins := 0
    spins := 3
    last_spin_time := 0
    ref_by := none
    refs := []
    daily_refs := []
    weekly_refs := []
    task_pending := []
    task_done := [] }

/-- The user store: an association list from string user id to record,
modelling both the Mongo collection and the JSON file cache. -/
abbrev Store := List (String × UserRecord)

/-- Look a user id up in the store (first matching key). -/
def lookupUser : Store → String → Option UserRecord
  | [], _ => none
  | (k, u) :: rest, uid => if k = uid then some u else lookupUser rest uid

/-- `save_user`: overwrite the record stored under `uid`, appending a new
entry when the id is not yet present (Python dict assignment / Mongo upsert). -/
def save_user : Store → String → UserRecord → Store
  | [], uid, u => [(uid, u)]
  | (k, v) :: rest, uid, u =>
      if k = uid then (uid, u) :: rest else (k, v) :: save_user rest uid u

/-- `get_user`: return the stored record, or create-and-persist the default
record when the id is unknown. -/
def get_user (s : Store) (uid : String) : Store × UserRecord :=
  match lookupUser s uid with
  | some u => (s, u)
  | none => (save_user s uid defaultUser, defaultUser)

/-- The fixed weighted reward table `REWARD_POOL` from src/main.py. -/
def REWARD_POOL : List (Int × Nat) :=
  [(0, 20), (300, 35), (500, 27), (800, 10), (1000, 5), (1500, 3)]

/-- The weight-expanded multiset of payouts built by `draw_reward` before it
calls `random.choice`. -/
def reward_choices : List Int :=
  REWARD_POOL.foldl (fun acc p => acc ++ List.replicate p.2 p.1) []

/-- `draw_reward` with the uniform random index made explicit: index `i`
taken modulo the pool size selects the payout, exactly as `random.choice`
selects a uniform position in the expanded list. -/
def draw_reward (i : Nat) : Int :=
  reward_choices.getD (i % reward_choices.length) 0

/-- Outcome of a `/spin` command: either a win with the drawn reward, or the
cooldown message with the remaining seconds and its hour/minute rendering. -/
inductive SpinOutcome
  | Won (reward : Int)
  | Cooldown (remain hours mins : Int)
deriving DecidableEq, Repr

/-- The shared tail of `cmd_spin`: decrement spins, stamp the spin time, draw
the reward, add it to coins, persist. -/
def spin_core (s : Store) (uid : String) (user : UserRecord) (now : Int)
    (i : Nat) : Store × SpinOutcome :=
  let user1 := { user with spins := user.spins - 1, last_spin_time := now }
  let reward := draw_reward i
  let user2 := { user1 with coins := user1.coins + reward }
  (save_user s uid user2, SpinOutcome.Won reward)

/-- `cmd_spin` from src/main.py: refill to 2 spins when none are left and the
10-hour (36000 s) cooldown has elapsed, report the remaining cooldown
otherwise, and in every other case consume a spin and credit a drawn reward. -/
def cmd_spin (s : Store) (uid : String) (now : Int) (i : Nat) :
    Store × SpinOutcome :=
  let p := get_user s uid
  let s1 := p.1
  let user := p.2
  if user.spins ≤ 0 then
    if 36000 ≤ now - user.last_spin_time then
      spin_core s1 uid { user with spins := 2 } now i
    else
      let remain := 36000 - (now - user.last_spin_time)
      (s1, SpinOutcome.Cooldown remain (remain.fdiv 3600)
        ((remain.fmod 3600).fdiv 60))
  else
    spin_core s1 uid user now i

/-- Outcome of the referral branch of `cmd_start`: accepted (referrer is
notified of the bonus spin) or silently rejected for one of the three
documented reasons, or no referral argument was supplied. -/
inductive RefOutcome
  | Accepted
  | SelfReferral
  | AlreadyReferred
  | CapExceeded
  | NoRef
deriving DecidableEq, Repr

/-- `cmd_start` from src/main.py: create the caller's record, then apply the
referral credit to the referrer when the argument denotes another user that
has not already referred the caller and is under both caps; finally persist
the caller's record as read. -/
def cmd_start (s : Store) (uid : String) (refArg : Option String) :
    Store × RefOutcome :=
  let p := get_user s uid
  let s1 := p.1
  let user := p.2
  match refArg with
  | none => (save_user s1 uid user, RefOutcome.NoRef)
  | some ref =>
    if ref = uid then (save_user s1 uid user, RefOutcome.SelfReferral)
    else
      let q := get_user s1 ref
      let s2 := q.1
      let ref_user := q.2
      if uid ∈ ref_user.refs then
        (save_user s2 uid user, RefOutcome.AlreadyReferred)
      else if ref_user.daily_refs.length < 5 ∧ ref_user.weekly_refs.length < 40 then
        let ref_user1 := { ref_user with
          refs := ref_user.refs ++ [uid]
          daily_refs := ref_user.daily_refs ++ [uid]
          weekly_refs := ref_user.weekly_refs ++ [uid]
          spins := ref_user.spins + 1 }
        (save_user (save_user s2 ref ref_user1) uid user, RefOutcome.Accepted)
      else (save_user s2 uid user, RefOutcome.CapExceeded)

/-- `cmd_submit` from src/main.py: add the caller's own id to `task_pending`
unless it is already there. The boolean is true exactly when the submission
was recorded, i.e. when the user reply and the admin signal are sent. -/
def cmd_submit (s : Store) (uid : String) : Store × Bool :=
  let p := get_user s uid
  let s1 := p.1
  let user := p.2
  if uid ∈ user.task_pending then (s1, false)
  else
    let user1 := { user with task_pending := user.task_pending ++ [uid] }
    (save_user s1 uid user1, true)

/-- Replies produced by the admin command handlers (the silent authorization
no-op is `none` at the call sites). -/
inductive Reply
  | usage
  | badAmount
  | approvedNote
  | noPendingTask
  | statsTotal (n : Nat)
  | setCoinsDone (amount : Int) (uid : String)
  | broadcastDone
deriving DecidableEq, Repr

/-- `cmd_approvetask` from src/main.py: silent return for non-admin callers;
usage message when the target id is missing; otherwise credit 500 coins, move
the id from `task_pending` to `task_done` and persist, or report that no task
is pending. -/
def cmd_approvetask (s : Store) (adminId callerId : Int)
    (arg : Option String) : Store × Option Reply :=
  if callerId ≠ adminId then (s, none)
  else
    match arg with
    | none => (s, some Reply.usage)
    | some uid =>
      let p := get_user s uid
      let s1 := p.1
      let user := p.2
      if uid ∈ user.task_pending then
        let reward : Int := 500
        let user1 := { user with
          coins := user.coins + reward
          task_pending := user.task_pending.erase uid
          task_done := user.task_done ++ [uid] }
        (save_user s1 uid user1, some Reply.approvedNote)
      else (s1, some Reply.noPendingTask)

/-- `cmd_userstats` from src/main.py: silent return for non-admin callers,
otherwise report the number of stored user records. -/
def cmd_userstats (s : Store) (adminId callerId : Int) : Store × Option Reply :=
  if callerId ≠ adminId then (s, none)
  else (s, some (Reply.statsTotal s.length))

/-- Parsed argument forms of `/setcoins`: wrong arity, a non-numeric amount,
or a target id with an integer amount. -/
inductive SetCoinsArgs
  | malformed
  | badAmount (uid : String)
  | ok (uid : String) (amount : Int)
deriving DecidableEq, Repr

/-- `cmd_setcoins` from src/main.py: silent return for non-admin callers;
usage or parse-error replies with no state change; otherwise an absolute
overwrite of the target's coins with the given integer. -/
def cmd_setcoins (s : Store) (adminId callerId : Int) (args : SetCoinsArgs) :
    Store × Option Reply :=
  if callerId ≠ adminId then (s, none)
  else
    match args with
    | SetCoinsArgs.malformed => (s, some Reply.usage)
    | SetCoinsArgs.badAmount _ => (s, some Reply.badAmount)
    | SetCoinsArgs.ok uid amount =>
      let p := get_user s uid
      let s1 := p.1
      let user := p.2
      (save_user s1 uid { user with coins := amount },
       some (Reply.setCoinsDone amount uid))

/-- `cmd_broadcast` from src/main.py: silent return for non-admin callers;
usage reply when no text follows; otherwise a best-effort send to every known
user (transport only — no record is modified). -/
def cmd_broadcast (s : Store) (adminId callerId : Int) (text : Option String) :
    Store × Option Reply :=
  if callerId ≠ adminId then (s, none)
  else
    match text with
    | none => (s, some Reply.usage)
    | some _ => (s, some Reply.broadcastDone)

/-- The state-mutating operations of the bot, with random index and clock
made explicit; broadcast and userstats never write and are omitted. -/
inductive Op
  | start (uid : String) (refArg : Option String)
  | spin (uid : String) (now : Int) (i : Nat)
  | submit (uid : String)
  | approve (adminId callerId : Int) (arg : Option String)
  | setcoins (adminId callerId : Int) (args : SetCoinsArgs)
deriving DecidableEq, Repr

/-- Apply one operation to the store, discarding the reply. -/
def applyOp (s : Store) : Op → Store
  | Op.start uid r => (cmd_start s uid r).1
  | Op.spin uid now i => (cmd_spin s uid now i).1
  | Op.submit uid => (cmd_submit s uid).1
  | Op.approve a c arg => (cmd_approvetask s a c arg).1
  | Op.setcoins a c args => (cmd_setcoins s a c args).1

/-- Run a sequence of operations from a starting store. -/
def run (s : Store) (ops : List Op) : Store := ops.foldl applyOp s

theorem lookup_save_self (s : Store) (uid : String) (u : UserRecord) :
    lookupUser (save_user s uid u) uid = some u := by
  induction s with
  | nil => simp [save_user, lookupUser]
  | cons p rest ih =>
    obtain ⟨k, v⟩ := p
    by_cases hk : k = uid
    · simp [save_user, hk, lookupUser]
    · simp [save_user, hk, lookupUser, ih]

theorem lookup_save_ne (s : Store) (uid v : String) (u : UserRecord)
    (h : v ≠ uid) : lookupUser (save_user s uid u) v = lookupUser s v := by
  induction s with
  | nil => simp [save_user, lookupUser, Ne.symm h]
  | cons p rest ih =>
    obtain ⟨k, w⟩ := p
    by_cases hk : k = uid
    · subst hk
      simp [save_user, lookupUser, Ne.symm h]
    · simp [save_user, hk, lookupUser, ih]

theorem get_user_found (s : Store) (uid : String) (u : UserRecord)
    (h : lookupUser s uid = some u) : get_user s uid = (s, u) := by
  simp [get_user, h]

theorem get_user_new (s : Store) (uid : String)
    (h : lookupUser s uid = none) :
    get_user s uid = (save_user s uid defaultUser, defaultUser) := by
  simp [get_user, h]

theorem reward_choices_length : reward_choices.length = 100 := by decide

theorem draw_reward_mem (i : Nat) : draw_reward i ∈ reward_choices := by
  have hlt : i % reward_choices.length < reward_choices.length := by
    rw [reward_choices_length]
    exact Nat.mod_lt _ (by norm_num)
  rw [draw_reward, List.getD_eq_getElem _ _ hlt]
  exact List.getElem_mem hlt

theorem draw_reward_nonneg (i : Nat) : 0 ≤ draw_reward i := by
  have hmem := draw_reward_mem i
  have hall : ∀ x ∈ reward_choices, (0 : Int) ≤ x := by decide
  exact hall _ hmem

theorem lookup_get_user_self (s : Store) (uid : String) :
    lookupUser (get_user s uid).1 uid = some (get_user s uid).2 := by
  unfold get_user
  cases hlu : lookupUser s uid with
  | some u => simp [hlu]
  | none => simp [hlu, lookup_save_self]

theorem lookup_get_user_other (s : Store) (uid ref : String) (hne : ref ≠ uid) :
    lookupUser (get_user s uid).1 ref = lookupUser s ref := by
  unfold get_user
  cases hlu : lookupUser s uid with
  | some u => simp [hlu]
  | none => simp [hlu, lookup_save_ne s uid ref defaultUser hne]

/-- A sample record that has used up its spins, for concrete instantiations. -/
def uSpent : UserRecord := { defaultUser with spins := 0 }

/-- A sample record with a pending task, for concrete instantiations. -/
def uPend : UserRecord := { defaultUser with task_pending := ["9"] }

/-- C1: for a record with zero spins whose 10-hour cooldown has elapsed, a
spin refills spins to 2, applies the ordinary decrement so that exactly 1
spin remains, stamps `last_spin_time` with `now`, credits the drawn reward to
coins, persists the record, and reports `Won` with the drawn reward. -/
theorem spin_refill_spec (s : Store) (uid : String) (u : UserRecord)
    (now : Int) (i : Nat) (hu : lookupUser s uid = some u) (hs : u.spins = 0)
    (hc : 36000 ≤ now - u.last_spin_time) :
    cmd_spin s uid now i =
      (save_user s uid
        { u with spins := 1, last_spin_time := now,
                 coins := u.coins + draw_reward i },
       SpinOutcome.Won (draw_reward i)) := by
  simp [cmd_spin, spin_core, get_user_found s uid u hu, hs, hc]

theorem spin_refill_witness :
    cmd_spin [("1", uSpent)] "1" 36000 0 =
      (save_user [("1", uSpent)] "1"
        { uSpent with spins := 1, last_spin_time := 36000,
                      coins := uSpent.coins + draw_reward 0 },
       SpinOutcome.Won (draw_reward 0)) :=
  spin_refill_spec _ _ _ _ _ (by decide) (by decide) (by decide)

/-- C4: for a record with zero spins whose cooldown has not elapsed, a spin
leaves the store entirely unchanged (nothing persisted) and reports a
`Cooldown` whose remaining seconds are `36000 - (now - last_spin_time)`,
rendered as whole hours and minutes by integer division. -/
theorem spin_cooldown_spec (s : Store) (uid : String) (u : UserRecord)
    (now : Int) (i : Nat) (hu : lookupUser s uid = some u) (hs : u.spins = 0)
    (hc : now - u.last_spin_time < 36000) :
    cmd_spin s uid now i =
      (s, SpinOutcome.Cooldown (36000 - (now - u.last_spin_time))
        ((36000 - (now - u.last_spin_time)).fdiv 3600)
        (((36000 - (now - u.last_spin_time)).fmod 3600).fdiv 60)) := by
  simp [cmd_spin, get_user_found s uid u hu, hs, not_le.mpr hc]

theorem spin_cooldown_witness :
    cmd_spin [("1", uSpent)] "1" 35999 0 =
      ([("1", uSpent)],
       SpinOutcome.Cooldown (36000 - (35999 - uSpent.last_spin_time))
        ((36000 - (35999 - uSpent.last_spin_time)).fdiv 3600)
        (((36000 - (35999 - uSpent.last_spin_time)).fmod 3600).fdiv 60)) :=
  spin_cooldown_spec _ _ _ _ _ (by decide) (by decide) (by decide)

/-- C2 counterexample: the weight-expanded list `draw_reward` samples from
has 100 elements (the weights sum to 100), not 90 as the claim states. -/
theorem reward_pool_size_cex :
    reward_choices.length = 100 ∧ reward_choices.length ≠ 90 := by decide

/-- C2 (amended): the weight-expanded list contains each payout exactly as
many times as its weight, has exactly 100 elements (the weights sum to 100,
not 90), so under a uniform random index the probability of drawing value v
is weight(v)/100; moreover every draw is one of the six table values. -/
theorem draw_reward_distribution :
    reward_choices.length = 100 ∧
    (reward_choices.count (0 : Int) = 20 ∧
     reward_choices.count (300 : Int) = 35 ∧
     reward_choices.count (500 : Int) = 27 ∧
     reward_choices.count (800 : Int) = 10 ∧
     reward_choices.count (1000 : Int) = 5 ∧
     reward_choices.count (1500 : Int) = 3) ∧
    ((List.range 100).countP (fun i => draw_reward i == (0 : Int)) = 20 ∧
     (List.range 100).countP (fun i => draw_reward i == (300 : Int)) = 35 ∧
     (List.range 100).countP (fun i => draw_reward i == (500 : Int)) = 27 ∧
     (List.range 100).countP (fun i => draw_reward i == (800 : Int)) = 10 ∧
     (List.range 100).countP (fun i => draw_reward i == (1000 : Int)) = 5 ∧
     (List.range 100).countP (fun i => draw_reward i == (1500 : Int)) = 3) ∧
    ∀ i : Nat, draw_reward i ∈ ([0, 300, 500, 800, 1000, 1500] : List Int) := by
  refine ⟨by decide, by decide, by decide, fun i => ?_⟩
  have hmem := draw_reward_mem i
  have hall : ∀ x ∈ reward_choices,
      x ∈ ([0, 300, 500, 800, 1000, 1500] : List Int) := by decide
  exact hall _ hmem

/-- C8: every admin-gated handler called by an id other than the configured
admin id leaves the store untouched and produces no reply at all. -/
theorem admin_gate_silent (s : Store) (adminId callerId : Int)
    (h : callerId ≠ adminId) (arg : Option String) (scargs : SetCoinsArgs)
    (text : Option String) :
    cmd_approvetask s adminId callerId arg = (s, none) ∧
    cmd_userstats s adminId callerId = (s, none) ∧
    cmd_setcoins s adminId callerId scargs = (s, none) ∧
    cmd_broadcast s adminId callerId text = (s, none) := by
  refine ⟨?_, ?_, ?_, ?_⟩ <;>
    simp [cmd_approvetask, cmd_userstats, cmd_setcoins, cmd_broadcast, h]

theorem admin_gate_silent_witness :
    cmd_approvetask [] 1 0 none = ([], none) ∧
    cmd_userstats [] 1 0 = ([], none) ∧
    cmd_setcoins [] 1 0 SetCoinsArgs.malformed = ([], none) ∧
    cmd_broadcast [] 1 0 none = ([], none) :=
  admin_gate_silent [] 1 0 (by decide) none SetCoinsArgs.malformed none

/-- C6: an admin task approval moves a pending id to `task_done` and credits
exactly 500 coins; when there is no pending entry it reports so and leaves
the store (in particular the target's coins) unchanged. -/
theorem approvetask_spec (s : Store) (a : Int) (uid : String) (u : UserRecord)
    (hu : lookupUser s uid = some u) :
    (uid ∈ u.task_pending →
      cmd_approvetask s a a (some uid) =
        (save_user s uid
          { u with coins := u.coins + 500
                   task_pending := u.task_pending.erase uid
                   task_done := u.task_done ++ [uid] },
         some Reply.approvedNote)) ∧
    (uid ∉ u.task_pending →
      cmd_approvetask s a a (some uid) = (s, some Reply.noPendingTask)) := by
  have hfound := get_user_found s uid u hu
  constructor
  · intro hin
    simp [cmd_approvetask, hfound, hin]
  · intro hnin
    simp [cmd_approvetask, hfound, hnin]

theorem approvetask_witness :
    cmd_approvetask [("9", uPend)] 1 1 (some "9") =
      (save_user [("9", uPend)] "9"
        { uPend with coins := uPend.coins + 500
                     task_pending := uPend.task_pending.erase "9"
                     task_done := uPend.task_done ++ ["9"] },
       some Reply.approvedNote) :=
  (approvetask_spec [("9", uPend)] 1 "9" uPend (by decide)).1 (by decide)

/-- C9 counterexample: a new user starting with an accepted referral still
has `ref_by = none`; the referrer id is never recorded in the referee's
record. -/
theorem start_ref_by_cex :
    (cmd_start [] "2" (some "1")).2 = RefOutcome.Accepted ∧
    (lookupUser (cmd_start [] "2" (some "1")).1 "2").map UserRecord.ref_by =
      some none := by decide

/-- C9 (amended): `cmd_start` persists the caller's record exactly as it was
read (the default record for a new user), so `ref_by` is never written by
the referral flow — it keeps its prior value, which is `none` for users that
joined with or without a referrer. -/
theorem start_ref_by_spec (s : Store) (uid : String) (refArg : Option String) :
    lookupUser (cmd_start s uid refArg).1 uid = some (get_user s uid).2 ∧
    (lookupUser (cmd_start s uid refArg).1 uid).map UserRecord.ref_by =
      some (get_user s uid).2.ref_by := by
  have hmain : lookupUser (cmd_start s uid refArg).1 uid =
      some (get_user s uid).2 := by
    unfold cmd_start
    cases refArg with
    | none => simp [lookup_save_self]
    | some ref =>
      by_cases heq : ref = uid
      · simp [heq, lookup_save_self]
      · simp only [heq, if_false, ite_false]
        by_cases hin : uid ∈ (get_user (get_user s uid).1 ref).2.refs
        · simp [hin, lookup_save_self]
        · by_cases hcap : (get_user (get_user s uid).1 ref).2.daily_refs.length < 5 ∧
              (get_user (get_user s uid).1 ref).2.weekly_refs.length < 40
          · simp [hin, hcap, lookup_save_self]
          · simp [hin, hcap, lookup_save_self]
  exact ⟨hmain, by rw [hmain]; rfl⟩

theorem cmd_start_reject_store (s : Store) (uid ref : String) (ru : UserRecord)
    (hne : ref ≠ uid) (hrs1 : lookupUser (get_user s uid).1 ref = some ru)
    (hreason : uid ∈ ru.refs ∨ 5 ≤ ru.daily_refs.length ∨
      40 ≤ ru.weekly_refs.length) :
    (cmd_start s uid (some ref)).1 =
      save_user (get_user s uid).1 uid (get_user s uid).2 := by
  have hfound := get_user_found _ _ _ hrs1
  rcases hreason with hin | h5 | h40
  · simp [cmd_start, hne, hfound, hin]
  · by_cases hin : uid ∈ ru.refs
    · simp [cmd_start, hne, hfound, hin]
    · have hcap : ¬(ru.daily_refs.length < 5 ∧ ru.weekly_refs.length < 40) := by
        omega
      simp [cmd_start, hne, hfound, hin, hcap]
  · by_cases hin : uid ∈ ru.refs
    · simp [cmd_start, hne, hfound, hin]
    · have hcap : ¬(ru.daily_refs.length < 5 ∧ ru.weekly_refs.length < 40) := by
        omega
      simp [cmd_start, hne, hfound, hin, hcap]

/-- C3: a referral from a distinct, not-yet-referred referee whose referrer
is under both caps appends the referee to `refs`, `daily_refs` and
`weekly_refs` and adds exactly one spin, leaving coins (and every other
field) of the referrer unchanged; a self-referral, duplicate referral, or
either cap being reached leaves the referrer's record entirely unchanged. -/
theorem referral_spec (s : Store) (uid ref : String) (ru : UserRecord)
    (hr : lookupUser s ref = some ru) :
    (ref ≠ uid → uid ∉ ru.refs → ru.daily_refs.length < 5 →
      ru.weekly_refs.length < 40 →
      lookupUser (cmd_start s uid (some ref)).1 ref =
        some { ru with
          refs := ru.refs ++ [uid]
          daily_refs := ru.daily_refs ++ [uid]
          weekly_refs := ru.weekly_refs ++ [uid]
          spins := ru.spins + 1 }) ∧
    ((ref = uid ∨ uid ∈ ru.refs ∨ 5 ≤ ru.daily_refs.length ∨
      40 ≤ ru.weekly_refs.length) →
      lookupUser (cmd_start s uid (some ref)).1 ref = some ru) := by
  constructor
  · intro hne hnotin hd hw
    have hrs1 : lookupUser (get_user s uid).1 ref = some ru := by
      rw [lookup_get_user_other s uid ref hne]; exact hr
    have hred : (cmd_start s uid (some ref)).1 =
        save_user
          (save_user (get_user s uid).1 ref
            { ru with
              refs := ru.refs ++ [uid]
              daily_refs := ru.daily_refs ++ [uid]
              weekly_refs := ru.weekly_refs ++ [uid]
              spins := ru.spins + 1 })
          uid (get_user s uid).2 := by
      simp [cmd_start, hne, get_user_found _ _ _ hrs1, hnotin, hd, hw]
    rw [hred, lookup_save_ne _ uid ref _ hne, lookup_save_self]
  · intro hrej
    by_cases heq : ref = uid
    · subst heq
      have hfound := get_user_found s ref ru hr
      simp [cmd_start, hfound, lookup_save_self]
    · have hrs1 : lookupUser (get_user s uid).1 ref = some ru := by
        rw [lookup_get_user_other s uid ref heq]; exact hr
      have hreason : uid ∈ ru.refs ∨ 5 ≤ ru.daily_refs.length ∨
          40 ≤ ru.weekly_refs.length := by
        rcases hrej with h | h | h | h
        · exact absurd h heq
        · exact Or.inl h
        · exact Or.inr (Or.inl h)
        · exact Or.inr (Or.inr h)
      rw [cmd_start_reject_store s uid ref ru heq hrs1 hreason,
        lookup_save_ne _ uid ref _ heq]
      exact hrs1

theorem referral_witness :
    lookupUser (cmd_start [("1", defaultUser)] "2" (some "1")).1 "1" =
      some { defaultUser with
        refs := defaultUser.refs ++ ["2"]
        daily_refs := defaultUser.daily_refs ++ ["2"]
        weekly_refs := defaultUser.weekly_refs ++ ["2"]
        spins := defaultUser.spins + 1 } :=
  (referral_spec [("1", defaultUser)] "2" "1" defaultUser (by decide)).1
    (by decide) (by decide) (by decide) (by decide)

theorem cmd_submit_pending (t : Store) (uid : String) (w : UserRecord)
    (hw : lookupUser t uid = some w) (hin : uid ∈ w.task_pending) :
    cmd_submit t uid = (t, false) := by
  simp [cmd_submit, get_user_found _ _ _ hw, hin]

theorem cmd_submit_notpending (t : Store) (uid : String) (w : UserRecord)
    (hw : lookupUser t uid = some w) (hnin : uid ∉ w.task_pending) :
    cmd_submit t uid =
      (save_user t uid
        { w with task_pending := w.task_pending ++ [uid] }, true) := by
  simp [cmd_submit, get_user_found _ _ _ hw, hnin]

/-- C7: task submission is idempotent — starting from a reachable pending
state (empty, or already holding the user's own id), two consecutive
submissions leave `task_pending` equal to the one-element list of the user's
own id, and the second submission changes no state and sends no reply or
admin signal. -/
theorem submit_idempotent (s : Store) (uid : String)
    (h : (get_user s uid).2.task_pending = [] ∨
         (get_user s uid).2.task_pending = [uid]) :
    (lookupUser (cmd_submit (cmd_submit s uid).1 uid).1 uid).map
        UserRecord.task_pending = some [uid] ∧
    cmd_submit (cmd_submit s uid).1 uid = ((cmd_submit s uid).1, false) := by
  have hself := lookup_get_user_self s uid
  rcases h with h | h
  · have hnin : uid ∉ (get_user s uid).2.task_pending := by simp [h]
    have h1 : cmd_submit s uid =
        (save_user (get_user s uid).1 uid
          { (get_user s uid).2 with
            task_pending := (get_user s uid).2.task_pending ++ [uid] },
         true) := by
      simp [cmd_submit, hnin]
    have hl2 : lookupUser (cmd_submit s uid).1 uid =
        some { (get_user s uid).2 with
          task_pending := (get_user s uid).2.task_pending ++ [uid] } := by
      rw [h1]; exact lookup_save_self _ _ _
    have h2 := cmd_submit_pending (cmd_submit s uid).1 uid _ hl2 (by simp)
    refine ⟨?_, h2⟩
    rw [h2]
    simp [hl2, h]
  · have hin : uid ∈ (get_user s uid).2.task_pending := by simp [h]
    have h1 : cmd_submit s uid = ((get_user s uid).1, false) := by
      simp [cmd_submit, hin]
    have hl2 : lookupUser (cmd_submit s uid).1 uid =
        some (get_user s uid).2 := by rw [h1]; exact hself
    have h2 := cmd_submit_pending (cmd_submit s uid).1 uid _ hl2 hin
    refine ⟨?_, h2⟩
    rw [h2]
    simp [hl2, h]

theorem submit_idempotent_witness :
    (lookupUser (cmd_submit (cmd_submit [] "5").1 "5").1 "5").map
        UserRecord.task_pending = some ["5"] ∧
    cmd_submit (cmd_submit [] "5").1 "5" = ((cmd_submit [] "5").1, false) :=
  submit_idempotent [] "5" (by decide)

/-- C10: whenever a spin succeeds (reports `Won`), only the `spins`,
`last_spin_time` and `coins` fields of the spinning user's record change —
`ref_by`, `refs`, `daily_refs`, `weekly_refs`, `task_pending` and `task_done`
keep their values — and every other user's record is untouched. -/
theorem spin_frame (s : Store) (uid : String) (u : UserRecord) (now : Int)
    (i : Nat) (r : Int) (hu : lookupUser s uid = some u)
    (hwon : (cmd_spin s uid now i).2 = SpinOutcome.Won r) :
    ∃ n : UserRecord,
      lookupUser (cmd_spin s uid now i).1 uid = some n ∧
      n.ref_by = u.ref_by ∧ n.refs = u.refs ∧ n.daily_refs = u.daily_refs ∧
      n.weekly_refs = u.weekly_refs ∧ n.task_pending = u.task_pending ∧
      n.task_done = u.task_done ∧
      ∀ v, v ≠ uid → lookupUser (cmd_spin s uid now i).1 v = lookupUser s v := by
  have hfound := get_user_found s uid u hu
  by_cases h0 : u.spins ≤ 0
  · by_cases hc : 36000 ≤ now - u.last_spin_time
    · have hred : (cmd_spin s uid now i).1 =
          save_user s uid
            { u with spins := 2 - 1, last_spin_time := now,
                     coins := u.coins + draw_reward i } := by
        simp [cmd_spin, spin_core, hfound, h0, hc]
      refine ⟨{ u with
                spins := 2 - 1
                last_spin_time := now
                coins := u.coins + draw_reward i },
        ?_, rfl, rfl, rfl, rfl, rfl, rfl, ?_⟩
      · rw [hred]; exact lookup_save_self _ _ _
      · intro v hv
        rw [hred]; exact lookup_save_ne _ _ _ _ hv
    · exfalso
      have : (cmd_spin s uid now i).2 = SpinOutcome.Cooldown
          (36000 - (now - u.last_spin_time))
          ((36000 - (now - u.last_spin_time)).fdiv 3600)
          (((36000 - (now - u.last_spin_time)).fmod 3600).fdiv 60) := by
        simp [cmd_spin, hfound, h0, hc]
      rw [this] at hwon
      exact SpinOutcome.noConfusion hwon
  · have hred : (cmd_spin s uid now i).1 =
        save_user s uid
          { u with spins := u.spins - 1, last_spin_time := now,
                   coins := u.coins + draw_reward i } := by
      simp [cmd_spin, spin_core, hfound, h0]
    refine ⟨{ u with
              spins := u.spins - 1
              last_spin_time := now
              coins := u.coins + draw_reward i },
      ?_, rfl, rfl, rfl, rfl, rfl, rfl, ?_⟩
    · rw [hred]; exact lookup_save_self _ _ _
    · intro v hv
      rw [hred]; exact lookup_save_ne _ _ _ _ hv

/-- An operation is cap-respecting for the coin balance when it is not an
admin coin set with a negative amount. -/
def opGood : Op → Bool
  | Op.setcoins _ _ (SetCoinsArgs.ok _ amount) => decide (0 ≤ amount)
  | _ => true

/-- Every record in the store has a non-negative coin balance. -/
def StoreNonneg (s : Store) : Prop := ∀ p ∈ s, 0 ≤ (Prod.snd p).coins

instance (s : Store) : Decidable (StoreNonneg s) :=
  inferInstanceAs (Decidable (∀ p ∈ s, 0 ≤ (Prod.snd p).coins))

theorem mem_save (s : Store) (uid : String) (u : UserRecord)
    (p : String × UserRecord) :
    p ∈ save_user s uid u → p = (uid, u) ∨ p ∈ s := by
  induction s with
  | nil =>
    intro hp
    simp [save_user] at hp
    exact Or.inl hp
  | cons q rest ih =>
    obtain ⟨k, v⟩ := q
    intro hp
    by_cases hk : k = uid
    · simp [save_user, hk] at hp
      rcases hp with hp | hp
      · exact Or.inl (by simp [hp])
      · exact Or.inr (List.mem_cons_of_mem _ hp)
    · simp only [save_user, hk, if_false, ite_false, List.mem_cons] at hp
      rcases hp with hp | hp
      · exact Or.inr (by simp [hp])
      · rcases ih hp with h | h
        · exact Or.inl h
        · exact Or.inr (List.mem_cons_of_mem _ h)

theorem lookup_mem (s : Store) (uid : String) (u : UserRecord) :
    lookupUser s uid = some u → (uid, u) ∈ s := by
  induction s with
  | nil => intro h; simp [lookupUser] at h
  | cons q rest ih =>
    obtain ⟨k, v⟩ := q
    intro h
    by_cases hk : k = uid
    · simp [lookupUser, hk] at h
      subst hk
      simp [h]
    · simp [lookupUser, hk] at h
      exact List.mem_cons_of_mem _ (ih h)

theorem nonneg_save (s : Store) (uid : String) (u : UserRecord)
    (hs : StoreNonneg s) (hu : 0 ≤ u.coins) :
    StoreNonneg (save_user s uid u) := by
  intro p hp
  rcases mem_save s uid u p hp with h | h
  · rw [h]; exact hu
  · exact hs p h

theorem nonneg_lookup (s : Store) (uid : String) (u : UserRecord)
    (hs : StoreNonneg s) (hl : lookupUser s uid = some u) : 0 ≤ u.coins :=
  hs (uid, u) (lookup_mem s uid u hl)

theorem get_user_nonneg (s : Store) (uid : String) (hs : StoreNonneg s) :
    StoreNonneg (get_user s uid).1 ∧ 0 ≤ (get_user s uid).2.coins := by
  unfold get_user
  cases hlu : lookupUser s uid with
  | some u =>
    refine ⟨hs, ?_⟩
    exact nonneg_lookup s uid u hs hlu
  | none =>
    constructor
    · exact nonneg_save s uid defaultUser hs (le_refl 0)
    · exact le_refl 0

theorem spin_core_nonneg (s : Store) (uid : String) (user : UserRecord)
    (now : Int) (i : Nat) (hs : StoreNonneg s) (hu : 0 ≤ user.coins) :
    StoreNonneg (spin_core s uid user now i).1 := by
  refine nonneg_save _ _ _ hs ?_
  exact add_nonneg hu (draw_reward_nonneg i)

theorem cmd_start_nonneg (s : Store) (uid : String) (refArg : Option String)
    (hs : StoreNonneg s) : StoreNonneg (cmd_start s uid refArg).1 := by
  have h1 := get_user_nonneg s uid hs
  cases refArg with
  | none => simp only [cmd_start]; exact nonneg_save _ _ _ h1.1 h1.2
  | some ref =>
    by_cases heq : ref = uid
    · simp only [cmd_start, heq, if_true, ite_true]
      exact nonneg_save _ _ _ h1.1 h1.2
    · have h2 := get_user_nonneg (get_user s uid).1 ref h1.1
      by_cases hin : uid ∈ (get_user (get_user s uid).1 ref).2.refs
      · simp only [cmd_start, heq, hin, if_false, ite_false, if_true, ite_true]
        exact nonneg_save _ _ _ h2.1 h1.2
      · by_cases hcap :
            (get_user (get_user s uid).1 ref).2.daily_refs.length < 5 ∧
            (get_user (get_user s uid).1 ref).2.weekly_refs.length < 40
        · simp only [cmd_start, heq, hin, hcap, if_false, ite_false, if_true,
            ite_true]
          refine nonneg_save _ _ _ (nonneg_save _ _ _ h2.1 ?_) h1.2
          exact h2.2
        · simp only [cmd_start, heq, hin, hcap, if_false, ite_false]
          exact nonneg_save _ _ _ h2.1 h1.2

theorem cmd_spin_nonneg (s : Store) (uid : String) (now : Int) (i : Nat)
    (hs : StoreNonneg s) : StoreNonneg (cmd_spin s uid now i).1 := by
  have h1 := get_user_nonneg s uid hs
  by_cases h0 : (get_user s uid).2.spins ≤ 0
  · by_cases hc : 36000 ≤ now - (get_user s uid).2.last_spin_time
    · simp only [cmd_spin, h0, hc, if_true, ite_true]
      exact spin_core_nonneg _ _ _ _ _ h1.1 h1.2
    · simp only [cmd_spin, h0, hc, if_true, ite_true, if_false, ite_false]
      exact h1.1
  · simp only [cmd_spin, h0, if_false, ite_false]
    exact spin_core_nonneg _ _ _ _ _ h1.1 h1.2

theorem cmd_submit_nonneg (s : Store) (uid : String) (hs : StoreNonneg s) :
    StoreNonneg (cmd_submit s uid).1 := by
  have h1 := get_user_nonneg s uid hs
  by_cases hin : uid ∈ (get_user s uid).2.task_pending
  · simp only [cmd_submit, hin, if_true, ite_true]
    exact h1.1
  · simp only [cmd_submit, hin, if_false, ite_false]
    exact nonneg_save _ _ _ h1.1 h1.2

theorem cmd_approvetask_nonneg (s : Store) (a c : Int) (arg : Option String)
    (hs : StoreNonneg s) : StoreNonneg (cmd_approvetask s a c arg).1 := by
  by_cases hadm : c ≠ a
  · simp only [cmd_approvetask, if_pos hadm]
    exact hs
  · cases arg with
    | none => simp only [cmd_approvetask, if_neg hadm]; exact hs
    | some uid =>
      have h1 := get_user_nonneg s uid hs
      by_cases hin : uid ∈ (get_user s uid).2.task_pending
      · simp only [cmd_approvetask, if_neg hadm, hin, if_true, ite_true]
        refine nonneg_save _ _ _ h1.1 ?_
        have : (0 : Int) ≤ 500 := by norm_num
        exact add_nonneg h1.2 this
      · simp only [cmd_approvetask, if_neg hadm, hin, if_false, ite_false]
        exact h1.1

theorem cmd_setcoins_nonneg (s : Store) (a c : Int) (args : SetCoinsArgs)
    (hs : StoreNonneg s)
    (hop : opGood (Op.setcoins a c args) = true) :
    StoreNonneg (cmd_setcoins s a c args).1 := by
  by_cases hadm : c ≠ a
  · simp only [cmd_setcoins, if_pos hadm]
    exact hs
  · cases args with
    | malformed => simp only [cmd_setcoins, if_neg hadm]; exact hs
    | badAmount uid =>
      simp only [cmd_setcoins, if_neg hadm]; exact hs
    | ok uid amount =>
      have h1 := get_user_nonneg s uid hs
      have hamt : 0 ≤ amount := of_decide_eq_true hop
      simp only [cmd_setcoins, if_neg hadm]
      exact nonneg_save _ _ _ h1.1 hamt

theorem applyOp_nonneg (s : Store) (op : Op) (hs : StoreNonneg s)
    (hop : opGood op = true) : StoreNonneg (applyOp s op) := by
  cases op with
  | start uid r => exact cmd_start_nonneg s uid r hs
  | spin uid now i => exact cmd_spin_nonneg s uid now i hs
  | submit uid => exact cmd_submit_nonneg s uid hs
  | approve a c arg => exact cmd_approvetask_nonneg s a c arg hs
  | setcoins a c args => exact cmd_setcoins_nonneg s a c args hs hop

theorem run_nonneg (ops : List Op) :
    ∀ s : Store, StoreNonneg s → (∀ op ∈ ops, opGood op = true) →
      StoreNonneg (run s ops) := by
  induction ops with
  | nil => intro s hs _; exact hs
  | cons op rest ih =>
    intro s hs hops
    have hstep := applyOp_nonneg s op hs (hops op (by simp))
    have := ih (applyOp s op) hstep (fun o ho => hops o (List.mem_cons_of_mem _ ho))
    simpa [run] using this

/-- C5 counterexample: an admin coin set with amount -5 reaches a record
whose coins are negative. -/
theorem reachable_coins_negative_cex :
    ¬ StoreNonneg (run [] [Op.setcoins 1 1 (SetCoinsArgs.ok "7" (-5))]) := by
  decide

/-- C5 (amended): every record reachable from the empty store by spins,
referrals, task submissions, task approvals and admin coin sets has
non-negative coins, provided every admin coin set in the sequence uses a
non-negative amount; the code puts no sign restriction on the admin amount,
so a negative admin amount (and only that) can make coins negative. -/
theorem reachable_coins_nonneg (ops : List Op)
    (h : ∀ op ∈ ops, opGood op = true) : StoreNonneg (run [] ops) :=
  run_nonneg ops [] (by intro p hp; simp at hp) h

theorem reachable_coins_nonneg_witness :
    StoreNonneg (run []
      [Op.start "2" (some "1"), Op.spin "1" 0 3, Op.submit "2",
       Op.approve 1 1 (some "2"), Op.setcoins 1 1 (SetCoinsArgs.ok "7" 10)]) :=
  reachable_coins_nonneg _ (by decide)

theorem spin_frame_witness :
    ∃ n : UserRecord,
      lookupUser (cmd_spin [("1", uSpent)] "1" 36000 0).1 "1" = some n ∧
      n.ref_by = uSpent.ref_by ∧ n.refs = uSpent.refs ∧
      n.daily_refs = uSpent.daily_refs ∧
      n.weekly_refs = uSpent.weekly_refs ∧
      n.task_pending = uSpent.task_pending ∧
      n.task_done = uSpent.task_done ∧
      ∀ v, v ≠ "1" →
        lookupUser (cmd_spin [("1", uSpent)] "1" 36000 0).1 v =
          lookupUser [("1", uSpent)] v :=
  spin_frame [("1", uSpent)] "1" uSpent 36000 0 0 (by decide) (by decide)
